import Mathlib

/-!
Verification development for the apiweaver HTTP pipeline library.

The Go sources are embedded shallowly:

* `http.Handler` becomes a pure state transformer `HandlerT` over a `World`
  holding the response writer, the emitted log records, and an execution
  trace used to observe middleware ordering.
* `http.Header` becomes an association list from canonical header keys to
  value lists; `canonicalHeaderKey` mirrors Go's
  `textproto.CanonicalMIMEHeaderKey`.
* Nil-able Go function values (middlewares, options, probes) become
  `Option` values.
* Go `error` values become the inductive `GoErr`; `fmt.Errorf` with `%w`
  becomes the `wrapf` constructor, `errors.Is` becomes `errorsIs`.
* `time.Duration` becomes an `Int` count of nanoseconds.  The rendering of
  durations inside messages (`time.Duration.String`) is abstracted by
  `durationString`; no claim depends on its exact output.
* `panic` at construction time (`router.New` with a nil handler) becomes
  `Except.error`.
-/

namespace Apiweaver

/-- Events observed while a request flows through the middleware pipeline:
the pre-phase and post-phase of an instrumented stage, and handler events. -/
inductive Ev where
  | pre (i : Nat)
  | hnd (i : Nat)
  | post (i : Nat)
deriving DecidableEq

/-- Valid header-field bytes, mirroring Go `textproto` token bytes:
digits, letters, and the RFC 7230 token symbols. -/
def validHeaderFieldByte (c : Char) : Bool :=
  let n := c.toNat
  (48 ≤ n && n ≤ 57) || (65 ≤ n && n ≤ 90) || (97 ≤ n && n ≤ 122) ||
  n == 33 || n == 35 || n == 36 || n == 37 || n == 38 || n == 39 || n == 42 ||
  n == 43 || n == 45 || n == 46 || n == 94 || n == 95 || n == 96 || n == 124 || n == 126

/-- Canonical-case transformation of a header key: uppercase the first
letter and every letter following a hyphen, lowercase the rest. -/
def canonChars : Bool → List Char → List Char
  | _, [] => []
  | up, c :: cs =>
    let c2 := if up then c.toUpper else c.toLower
    c2 :: canonChars (c2 == '-') cs

/-- Embedding of Go `http.CanonicalHeaderKey`: keys containing an invalid
byte are returned unchanged, otherwise the canonical-case form is used. -/
def canonicalHeaderKey (s : String) : String :=
  if s.data.all validHeaderFieldByte then String.mk (canonChars true s.data) else s

/-- Header maps are association lists from keys to value lists. -/
abbrev Headers := List (String × List String)

/-- Lookup of the value list stored under a key (no canonicalization:
callers canonicalize first, exactly as in the Go map accesses). -/
def headerValues (hs : Headers) (k : String) : Option (List String) :=
  match hs.find? (fun p => p.fst == k) with
  | some p => some p.snd
  | none => none

/-- Embedding of Go `http.Header.Get`: canonicalize the key, return the
first stored value, or the empty string when the key is absent. -/
def headerGet (hs : Headers) (key : String) : String :=
  match headerValues hs (canonicalHeaderKey key) with
  | some (v :: _) => v
  | _ => ""

/-- Map update: replace the value list under a key when present, append a
new binding otherwise (Go map assignment). -/
def setAssoc (hs : Headers) (k : String) (v : List String) : Headers :=
  if hs.any (fun p => p.fst == k) then
    hs.map (fun p => if p.fst == k then (k, v) else p)
  else hs ++ [(k, v)]

/-- The response writer: headers written so far and the status code, `none`
until `WriteHeader` runs. -/
structure RespWriter where
  headers : Headers
  status : Option Nat
deriving DecidableEq

/-- Embedding of Go `w.Header().Set`: canonicalize the key and store a
single value. -/
def setHeader (w : RespWriter) (key value : String) : RespWriter :=
  { w with headers := setAssoc w.headers (canonicalHeaderKey key) [value] }

/-- Embedding of Go `w.WriteHeader`: the first written status wins,
subsequent writes are ignored. -/
def writeHeader (w : RespWriter) (code : Nat) : RespWriter :=
  match w.status with
  | some _ => w
  | none => { w with status := some code }

/-- One structured log record emitted by the logging middleware: the
`Path`, `Method`, `Header` and optional `ContentLength` attributes. -/
structure LogRecord where
  path : String
  method : String
  headers : Headers
  contentLength : Option Int
deriving DecidableEq

/-- The parts of `http.Request` read by the middlewares: method, URL path,
header map and content length. -/
structure Request where
  method : String
  path : String
  headers : Headers
  contentLength : Int
deriving DecidableEq

/-- The request-handling state threaded through handlers: the response
writer, the log records emitted so far, and the instrumentation trace. -/
structure World where
  writer : RespWriter
  logs : List LogRecord
  trace : List Ev
deriving DecidableEq

/-- Shallow embedding of `http.Handler`: a pure transformer of the
request-handling state. -/
abbrev HandlerT := Request → World → World

/-- Embedding of `router.applyMiddlewares`: wrap `handler` from the last
middleware to the first, skipping nil entries; an empty list returns the
handler unchanged.  The definition is polymorphic in the handler type; the
router instantiates it at `HandlerT`. -/
def applyMiddlewares {H : Type} (handler : H) (middlewares : List (Option (H → H))) : H :=
  if middlewares.length = 0 then handler
  else middlewares.foldr (fun mw h => match mw with | none => h | some f => f h) handler

/-- Embedding of `router.CORSConfig`. -/
structure CORSConfig where
  headers : List String
  methods : List String
  origins : List String
  allowCredentials : Bool

/-- Embedding of `router.cloneStrings`: a defensive copy, which under value
semantics is the identity on the list value. -/
def cloneStrings (values : List String) : List String := values

/-- Header-name and literal constants appearing in the router source. -/
def hdrOrigin : String := "Origin"

/-- Allow-origin response header name. -/
def hdrACAO : String := "Access-Control-Allow-Origin"

/-- Vary response header name. -/
def hdrVary : String := "Vary"

/-- Allow-methods response header name. -/
def hdrACAM : String := "Access-Control-Allow-Methods"

/-- Allow-headers response header name. -/
def hdrACAH : String := "Access-Control-Allow-Headers"

/-- Allow-credentials response header name. -/
def hdrACAC : String := "Access-Control-Allow-Credentials"

/-- The HTTP preflight method literal. -/
def methodOptions : String := "OPTIONS"

/-- The literal value written for the allow-credentials header. -/
def valTrue : String := "true"

/-- The wildcard origin literal. -/
def wildcardOrigin : String := "*"

/-- Separator joining method and header lists into CORS response headers. -/
def commaSep : String := ","

/-- Embedding of `router.allowedOrigin`: wildcard or case-sensitive exact
match against the configured origins. -/
def allowedOrigin (origin : String) (allowed : List String) : Bool :=
  allowed.any (fun candidate => candidate == wildcardOrigin || candidate == origin)

/-- Embedding of `router.corsMiddleware`: with no configured origins the
stage is the identity wrapper; otherwise it reflects allowed origins and
terminates preflight (`OPTIONS`) requests itself with a 200 status. -/
def corsMiddleware (cfg : CORSConfig) : HandlerT → HandlerT :=
  fun next =>
    let headersCopy := cloneStrings cfg.headers
    let methodsCopy := cloneStrings cfg.methods
    let originsCopy := cloneStrings cfg.origins
    if originsCopy.length = 0 then next
    else fun r world =>
      let origin := headerGet r.headers hdrOrigin
      if origin = "" then next r world
      else
        let world1 :=
          if allowedOrigin origin originsCopy then
            { world with writer := setHeader (setHeader world.writer hdrACAO origin) hdrVary hdrOrigin }
          else world
        if r.method = methodOptions then
          let w1 := setHeader world1.writer hdrACAM (String.intercalate commaSep methodsCopy)
          let w2 := setHeader w1 hdrACAH (String.intercalate commaSep headersCopy)
          let w3 := if cfg.allowCredentials then setHeader w2 hdrACAC valTrue else w2
          { world1 with writer := writeHeader w3 200 }
        else next r world1

/-- Opaque token standing for a `slog.Logger` collaborator. -/
structure Logger where
  tok : Nat
deriving DecidableEq

/-- Embedding of `router.shouldQuietRoute`: exact path match against the
quietdown list. -/
def shouldQuietRoute (path : String) (quietdownRoutes : List String) : Bool :=
  quietdownRoutes.any (fun quietPath => path == quietPath)

/-- Embedding of `router.cloneHeaders`: a defensive copy of the header map,
the identity on the list value. -/
def cloneHeaders (src : Headers) : Headers :=
  src.map (fun p => (p.fst, p.snd))

/-- Total byte length of a header value list (Go `len` on strings counts
bytes, hence `utf8ByteSize`). -/
def totalByteLen (values : List String) : Nat :=
  values.foldl (fun n v => n + v.utf8ByteSize) 0

/-- Opening text of the redaction placeholder. -/
def redactedOpen : String := "[REDACTED - "

/-- Closing text of the redaction placeholder. -/
def redactedClose : String := " bytes]"

/-- The placeholder written in place of a redacted header value list. -/
def redactedPlaceholder (n : Nat) : String :=
  redactedOpen ++ toString n ++ redactedClose

/-- One iteration of the loop of `router.redactHeaders`: look up the
configured name's canonical key and, when bound, replace the stored value
list by a single placeholder recording the total byte length of the
replaced values. -/
def redactStep (hs : Headers) (header : String) : Headers :=
  match headerValues hs (canonicalHeaderKey header) with
  | none => hs
  | some values =>
    setAssoc hs (canonicalHeaderKey header) [redactedPlaceholder (totalByteLen values)]

/-- Embedding of `router.redactHeaders`: apply the replacement step for
each configured name in order. -/
def redactHeaders (headers : Headers) (hideHeaders : List String) : Headers :=
  hideHeaders.foldl redactStep headers

/-- The log record built by the logging middleware for a request: path,
method, a redacted defensive copy of the headers, and the content length
when positive. -/
def logRecordOf (r : Request) (hideHeaders : List String) : LogRecord :=
  { path := r.path, method := r.method,
    headers := redactHeaders (cloneHeaders r.headers) hideHeaders,
    contentLength := if 0 < r.contentLength then some r.contentLength else none }

/-- Embedding of `router.loggingMiddleware`: unless the request path is in
the quietdown list, emit one structured record, then invoke the wrapped
handler.  Emission through the `slog.Logger` is modelled by appending the
record to the world's log list. -/
def loggingMiddleware (logger : Logger) (quietdownRoutes hideHeaders : List String) : HandlerT → HandlerT :=
  fun next r world =>
    let world1 :=
      if shouldQuietRoute r.path quietdownRoutes then world
      else { world with logs := world.logs ++ [logRecordOf r hideHeaders] }
    next r world1

/-- Instrumented stage used to observe pipeline ordering: records its
pre-phase event, runs the wrapped handler, records its post-phase event. -/
def stageMW (i : Nat) : HandlerT → HandlerT :=
  fun next r w =>
    let w1 := { w with trace := w.trace ++ [Ev.pre i] }
    let w2 := next r w1
    { w2 with trace := w2.trace ++ [Ev.post i] }

/-- Opaque token standing for the OpenAPI document collaborator
(`*openapi3.T`). -/
structure Swagger where
  tok : Nat
deriving DecidableEq

/-- Embedding of `router.Middleware` values: the four default stages the
router constructs, plus arbitrary caller-supplied middlewares.  The
validation and timeout stages delegate to external collaborators
(`oapi-codegen` validator, `http.TimeoutHandler`), so their behaviour is
kept abstract; only their identity in the chain matters to the claims. -/
inductive MW where
  | oapi (swagger : Swagger)
  | cors (cfg : CORSConfig)
  | timeoutMW (timeout : Int)
  | logging (logger : Logger) (quietdownRoutes hideHeaders : List String)
  | user (f : HandlerT → HandlerT)

/-- Embedding of `router.Config`: timeout in nanoseconds, CORS policy,
quietdown routes and redacted header names. -/
structure Config where
  timeout : Int
  cors : CORSConfig
  quietdownRoutes : List String
  hideHeaders : List String

/-- Embedding of the `router.options` struct. -/
structure RouterOptions where
  config : Config
  logger : Option Logger
  swagger : Option Swagger
  prepend : List (Option MW)
  append : List (Option MW)
  override : List (Option MW)
  enableOpenAPI : Bool
  enableCORS : Bool
  enableTimeout : Bool
  enableLogging : Bool

/-- Embedding of `router.shouldApplyCORS`: the policy is active when at
least one origin is configured. -/
def shouldApplyCORS (cfg : CORSConfig) : Bool :=
  decide (0 < cfg.origins.length)

/-- Embedding of `router.defaultOptions`: all default stages enabled,
timeout 30s, default logger present, no schema, empty CORS policy. -/
def defaultOptions : RouterOptions :=
  { config := { timeout := 30000000000,
                cors := { headers := [], methods := [], origins := [], allowCredentials := false },
                quietdownRoutes := [], hideHeaders := [] },
    logger := some { tok := 0 }, swagger := none,
    prepend := [], append := [], override := [],
    enableOpenAPI := true, enableCORS := true, enableTimeout := true, enableLogging := true }

/-- Embedding of `options.defaultMiddlewares`: the conditionally included
default stages, in the source's order. -/
def RouterOptions.defaultMiddlewares (o : RouterOptions) : List (Option MW) :=
  (match o.enableOpenAPI, o.swagger with
   | true, some s => [some (MW.oapi s)]
   | _, _ => []) ++
  (if o.enableCORS && shouldApplyCORS o.config.cors then [some (MW.cors o.config.cors)] else []) ++
  (if o.enableTimeout && decide (0 < o.config.timeout) then [some (MW.timeoutMW o.config.timeout)] else []) ++
  (match o.enableLogging, o.logger with
   | true, some l => [some (MW.logging l o.config.quietdownRoutes o.config.hideHeaders)]
   | _, _ => [])

/-- Embedding of `options.middlewareChain`: a non-empty override is used
verbatim (the source clones it, the identity on the list value), otherwise
the chain is prepend ++ defaults ++ append. -/
def RouterOptions.middlewareChain (o : RouterOptions) : List (Option MW) :=
  if 0 < o.override.length then o.override
  else o.prepend ++ o.defaultMiddlewares ++ o.append

/-- Embedding of `router.WithMiddlewareChain`: store the supplied list (a
clone, the identity on the value) as the full override. -/
def withMiddlewareChain (middlewares : List (Option MW)) : RouterOptions → RouterOptions :=
  fun o => { o with override := middlewares }

/-- The `*http.ServeMux` built by `router.New`: it has a single pattern
mapped to the composed handler. -/
structure Mux where
  handler : HandlerT

/-- The message of the panic raised by `router.New` on a nil handler. -/
def nilHandlerMsg : String := "router: handler cannot be nil"

/-- Interpretation of chain entries as handler transformers.  The
validation and timeout stages are external collaborators, supplied as
parameters. -/
def interpMW (oapiImpl : Swagger → HandlerT → HandlerT)
    (timeoutImpl : Int → HandlerT → HandlerT) : MW → HandlerT → HandlerT
  | MW.oapi s => oapiImpl s
  | MW.cors cfg => corsMiddleware cfg
  | MW.timeoutMW d => timeoutImpl d
  | MW.logging l q h => loggingMiddleware l q h
  | MW.user f => f

/-- Embedding of `router.New`: panic (modelled as `Except.error`) on a nil
handler, otherwise apply the non-nil option mutators in order to the
defaults and compose the resolved middleware chain around the handler. -/
def New (oapiImpl : Swagger → HandlerT → HandlerT)
    (timeoutImpl : Int → HandlerT → HandlerT)
    (apiHandle : Option HandlerT)
    (opts : List (Option (RouterOptions → RouterOptions))) : Except String Mux :=
  match apiHandle with
  | none => Except.error nilHandlerMsg
  | some handler =>
    let settings := opts.foldl (fun s opt => match opt with | none => s | some f => f s) defaultOptions
    let finalHandler := applyMiddlewares handler
      ((settings.middlewareChain).map (fun m => m.map (interpMW oapiImpl timeoutImpl)))
    Except.ok { handler := finalHandler }

/-- Embedding of Go `error` values as far as the probe orchestrator needs
them: the two `context` sentinels, errors with a plain message
(`errors.New` / `fmt.Errorf` without `%w`), and wrapping errors
(`fmt.Errorf` with `%w`), whose message is the wrap text followed by the
cause's message. -/
inductive GoErr where
  | deadlineExceeded
  | canceled
  | errorString (msg : String)
  | wrapf (msg : String) (cause : GoErr)
deriving DecidableEq

/-- Message of the `context.DeadlineExceeded` sentinel. -/
def msgDeadline : String := "context deadline exceeded"

/-- Message of the `context.Canceled` sentinel. -/
def msgCanceled : String := "context canceled"

/-- The `Error()` message of an embedded Go error. -/
def errMsg : GoErr → String
  | GoErr.deadlineExceeded => msgDeadline
  | GoErr.canceled => msgCanceled
  | GoErr.errorString m => m
  | GoErr.wrapf m c => m ++ errMsg c

/-- Embedding of `errors.Is`: equality against the target at every link of
the unwrap chain. -/
def errorsIs : GoErr → GoErr → Bool
  | GoErr.wrapf m c, target => (GoErr.wrapf m c == target) || errorsIs c target
  | e, target => e == target

/-- The unwrap/cause chain of an error: the error itself followed by the
chain of its cause, when it wraps one. -/
def unwrapChain : GoErr → List GoErr
  | GoErr.wrapf m c => GoErr.wrapf m c :: unwrapChain c
  | e => [e]

/-- Result of invoking one probe function: `none` for success, or the
returned error. -/
abbrev ProbeResult := Option GoErr

/-- Embedding of `info.defaultProbeTimeout` (2s, in nanoseconds). -/
def defaultProbeTimeout : Int := 2000000000

/-- Simplified rendering of a `time.Duration` for error messages; the
claims never depend on its exact form. -/
def durationString (d : Int) : String :=
  toString d ++ "ns"

/-- Message fragments of the probe orchestrator's classified errors. -/
def probeWord : String := "probe "

/-- Fragment between the probe index and the timeout duration. -/
def timedOutAfter : String := " timed out after "

/-- Fragment reported for a cancelled probe. -/
def wasCancelled : String := " was cancelled"

/-- Fragment opening the generic probe failure message. -/
def failedSep : String := " failed: "

/-- The classification applied by `runChecks` to a failing probe's error:
deadline-exceeded and cancellation conditions are reported as fresh
errors, anything else is wrapped with `%w`. -/
def classifyProbeError (n : Nat) (timeout : Int) (err : GoErr) : GoErr :=
  if errorsIs err GoErr.deadlineExceeded then
    GoErr.errorString (probeWord ++ toString n ++ timedOutAfter ++ durationString timeout)
  else if errorsIs err GoErr.canceled then
    GoErr.errorString (probeWord ++ toString n ++ wasCancelled)
  else
    GoErr.wrapf (probeWord ++ toString n ++ failedSep) err

/-- The loop of `info.runChecks` over the (possibly nil) probe entries,
carrying the running 0-based index.  Besides the error result it returns
the list of indices of the probes actually invoked, which instruments the
orchestrator's control flow. -/
def runChecksLoop (timeout : Int) (idx : Nat) : List (Option ProbeResult) → List Nat × Option GoErr
  | [] => ([], none)
  | none :: rest => runChecksLoop timeout (idx + 1) rest
  | some check :: rest =>
    match check with
    | none =>
      let r := runChecksLoop timeout (idx + 1) rest
      (idx :: r.fst, r.snd)
    | some err => ([idx], some (classifyProbeError (idx + 1) timeout err))

/-- The effective batch timeout: the configured one, defaulted when
non-positive (the `timeout <= 0` branch of `runChecks`). -/
def effProbeTimeout (probeTimeout : Int) : Int :=
  if probeTimeout ≤ 0 then defaultProbeTimeout else probeTimeout

/-- Embedding of `info.runChecks`: trivial success on an empty list,
otherwise run the probes sequentially under the effective timeout,
fail-fast with a classified error.  Probe functions are embedded by their
results; the first component of the pair records which entries were
invoked. -/
def runChecks (probeTimeout : Int) (checks : List (Option ProbeResult)) : List Nat × Option GoErr :=
  if checks.length = 0 then ([], none)
  else runChecksLoop (effProbeTimeout probeTimeout) 0 checks

/-- Embedding of `info.filterProbes`: drop nil entries (the source's
empty-to-nil normalizations do not change the list value). -/
def filterProbes (checks : List (Option ProbeResult)) : List (Option ProbeResult) :=
  if checks.length = 0 then [] else checks.filter (fun c => c.isSome)

/-- The probe-related state of `info.InfoHandler`. -/
structure InfoHandler where
  probeTimeout : Int
  livenessChecks : List (Option ProbeResult)
  readinessChecks : List (Option ProbeResult)

/-- Embedding of `info.WithLivenessChecks`: the stored list is the
filtered one. -/
def withLivenessChecks (checks : List (Option ProbeResult)) : InfoHandler → InfoHandler :=
  fun ih => { ih with livenessChecks := filterProbes checks }

/-- Embedding of `info.WithReadinessChecks`: the stored list is the
filtered one. -/
def withReadinessChecks (checks : List (Option ProbeResult)) : InfoHandler → InfoHandler :=
  fun ih => { ih with readinessChecks := filterProbes checks }

/-- Specification-side stage names: the four default stages, in the
spec's canonical order validation, CORS, timeout, logging. -/
inductive StageKind where
  | validation
  | corsStage
  | timeoutStage
  | loggingStage
deriving DecidableEq

/-- Specification-side enabling condition of each default stage, following
the spec's words: validation needs the flag and a schema collaborator;
CORS needs the flag and at least one origin; timeout needs the flag and a
positive duration; logging needs the flag and a logger collaborator. -/
def stageCond (o : RouterOptions) : StageKind → Bool
  | StageKind.validation => o.enableOpenAPI && o.swagger.isSome
  | StageKind.corsStage => o.enableCORS && decide (0 < o.config.cors.origins.length)
  | StageKind.timeoutStage => o.enableTimeout && decide (0 < o.config.timeout)
  | StageKind.loggingStage => o.enableLogging && o.logger.isSome

/-- Specification-side stage construction from the options value. -/
def mkStage (o : RouterOptions) : StageKind → MW
  | StageKind.validation => MW.oapi (o.swagger.getD { tok := 0 })
  | StageKind.corsStage => MW.cors o.config.cors
  | StageKind.timeoutStage => MW.timeoutMW o.config.timeout
  | StageKind.loggingStage => MW.logging (o.logger.getD { tok := 0 }) o.config.quietdownRoutes o.config.hideHeaders

/-- Specification-side default stages: exactly the subset of the four
canonical stages whose enabling condition holds, in the fixed order
validation, CORS, timeout, logging. -/
def defaultStagesSpec (o : RouterOptions) : List (Option MW) :=
  (([StageKind.validation, StageKind.corsStage, StageKind.timeoutStage,
     StageKind.loggingStage].filter (fun k => stageCond o k)).map (fun k => some (mkStage o k)))

/-- Specification-side chain resolution: a supplied (non-empty) full
override is authoritative and used verbatim, otherwise the chain is
prepend ++ default stages ++ append. -/
def middlewareChainSpec (o : RouterOptions) : List (Option MW) :=
  if o.override.isEmpty then o.prepend ++ defaultStagesSpec o ++ o.append
  else o.override

/-- Specification-side probe execution order: the 0-based positions of the
non-nil entries, truncated after the first failing probe (fail-fast). -/
def probeInvocationOrder (idx : Nat) : List (Option ProbeResult) → List Nat
  | [] => []
  | none :: rest => probeInvocationOrder (idx + 1) rest
  | some none :: rest => idx :: probeInvocationOrder (idx + 1) rest
  | some (some _) :: rest => [idx]

/-- Specification-side batch success: every non-nil probe returns nil. -/
def allProbesOk (checks : List (Option ProbeResult)) : Bool :=
  checks.all (fun c => match c with
    | some (some _) => false
    | _ => true)

/-- Substring test on character lists: some split position yields the
pattern as a segment. -/
def listContainsSub (s p : List Char) : Bool :=
  (List.range (s.length + 1)).any (fun i => decide ((s.drop i).take p.length = p))

/-- Substring test on strings, used to state the "contains" claims about
error messages. -/
def strContains (s pat : String) : Bool :=
  listContainsSub s.data pat.data

end Apiweaver

namespace Apiweaver

/-- Unfolding of `applyMiddlewares` as a right fold: the empty-list guard
of the source is redundant. -/
lemma applyMiddlewares_foldr {H : Type} (handler : H) (mws : List (Option (H → H))) :
    applyMiddlewares handler mws
      = mws.foldr (fun mw h => match mw with | none => h | some f => f h) handler := by
  cases mws with
  | nil => rfl
  | cons a l => rfl

/-- Claim C1: composing the pipeline wraps from the last stage to the
first, so for stages `[S1..Sn]` around a terminal handler the observed
execution order on a request is `S1.pre, ..., Sn.pre, handler, Sn.post,
..., S1.post`. -/
theorem applyMiddlewares_onion_order (labels : List Nat) (h : HandlerT)
    (hTrace : Request → List Ev)
    (hT : ∀ r w, (h r w).trace = w.trace ++ hTrace r) (r : Request) (w : World) :
    ((applyMiddlewares h (labels.map (fun i => some (stageMW i)))) r w).trace
      = w.trace ++ (labels.map Ev.pre ++ hTrace r ++ (labels.reverse.map Ev.post)) := by
  induction labels generalizing h hTrace w with
  | nil =>
    rw [List.map_nil, applyMiddlewares_foldr, List.foldr_nil, hT r w]
    simp
  | cons l ls ih =>
    have step : applyMiddlewares h ((l :: ls).map (fun i => some (stageMW i)))
        = stageMW l (applyMiddlewares h (ls.map (fun i => some (stageMW i)))) := by
      rw [applyMiddlewares_foldr, applyMiddlewares_foldr, List.map_cons, List.foldr_cons]
    rw [step]
    show ((applyMiddlewares h (ls.map (fun i => some (stageMW i)))) r
        { w with trace := w.trace ++ [Ev.pre l] }).trace ++ [Ev.post l] = _
    rw [ih h hTrace hT { w with trace := w.trace ++ [Ev.pre l] }]
    simp [List.append_assoc]

/-- Concrete request fixture. -/
def req0 : Request := { method := methodOptions, path := wildcardOrigin, headers := [], contentLength := 0 }

/-- Concrete fresh world fixture. -/
def w0 : World := { writer := { headers := [], status := none }, logs := [], trace := [] }

/-- Concrete terminal handler fixture: records one handler event. -/
def h0 : HandlerT := fun _ w => { w with trace := w.trace ++ [Ev.hnd 0] }

/-- Witness for claim C1 at stages `[1, 2, 3]` and a concrete handler. -/
theorem applyMiddlewares_onion_order_witness :
    (∀ r w, (h0 r w).trace = w.trace ++ [Ev.hnd 0]) ∧
    ((applyMiddlewares h0 ([1, 2, 3].map (fun i => some (stageMW i)))) req0 w0).trace
      = w0.trace ++ ([1, 2, 3].map Ev.pre ++ [Ev.hnd 0] ++ ([1, 2, 3].reverse.map Ev.post)) :=
  ⟨fun _ _ => rfl,
   applyMiddlewares_onion_order [1, 2, 3] h0 (fun _ => [Ev.hnd 0]) (fun _ _ => rfl) req0 w0⟩


/-- Unfolding of the specification-side default stages into the
concatenation of its four conditional segments. -/
lemma defaultStagesSpec_unfold (o : RouterOptions) :
    defaultStagesSpec o
      = (if stageCond o StageKind.validation then [some (mkStage o StageKind.validation)] else []) ++
        (if stageCond o StageKind.corsStage then [some (mkStage o StageKind.corsStage)] else []) ++
        (if stageCond o StageKind.timeoutStage then [some (mkStage o StageKind.timeoutStage)] else []) ++
        (if stageCond o StageKind.loggingStage then [some (mkStage o StageKind.loggingStage)] else []) := by
  unfold defaultStagesSpec
  by_cases h1 : stageCond o StageKind.validation <;>
    by_cases h2 : stageCond o StageKind.corsStage <;>
    by_cases h3 : stageCond o StageKind.timeoutStage <;>
    by_cases h4 : stageCond o StageKind.loggingStage <;>
    simp [h1, h2, h3, h4, List.filter_cons]

/-- The default middlewares agree with the specification-side default
stages: each of the four canonical stages is included exactly when its
enabling condition holds, in the fixed order. -/
lemma defaultMiddlewares_eq_spec (o : RouterOptions) :
    o.defaultMiddlewares = defaultStagesSpec o := by
  rw [defaultStagesSpec_unfold]
  unfold RouterOptions.defaultMiddlewares
  have e1 : (match o.enableOpenAPI, o.swagger with
      | true, some s => [some (MW.oapi s)]
      | _, _ => ([] : List (Option MW)))
      = (if stageCond o StageKind.validation then [some (mkStage o StageKind.validation)] else []) := by
    cases hO : o.enableOpenAPI <;> cases hS : o.swagger <;>
      simp [stageCond, mkStage, hO, hS]
  have e4 : (match o.enableLogging, o.logger with
      | true, some l => [some (MW.logging l o.config.quietdownRoutes o.config.hideHeaders)]
      | _, _ => ([] : List (Option MW)))
      = (if stageCond o StageKind.loggingStage then [some (mkStage o StageKind.loggingStage)] else []) := by
    cases hLg : o.enableLogging <;> cases hL : o.logger <;>
      simp [stageCond, mkStage, hLg, hL]
  rw [e1, e4]
  rfl

/-- Claim C2: chain resolution matches the specification: a supplied
(non-empty) full override is used verbatim, ignoring flags, default-stage
construction and the prepend/append lists; otherwise the chain is
prepend ++ defaults ++ append, with defaults exactly the enabled subset of
validation, CORS, timeout, logging in that fixed order. -/
theorem middlewareChain_resolution (o : RouterOptions) :
    o.middlewareChain = middlewareChainSpec o := by
  unfold RouterOptions.middlewareChain middlewareChainSpec
  cases hov : o.override with
  | nil => simp [defaultMiddlewares_eq_spec]
  | cons a l => simp

/-- Claim C9: building the pipeline with a nil terminal handler fails
fatally at construction time (the panic is modelled by `Except.error`),
for every options list; with a non-nil handler construction always
succeeds. -/
theorem new_nil_handler_fatal (oapiImpl : Swagger → HandlerT → HandlerT)
    (timeoutImpl : Int → HandlerT → HandlerT)
    (opts : List (Option (RouterOptions → RouterOptions))) :
    New oapiImpl timeoutImpl none opts = Except.error nilHandlerMsg ∧
    ∀ h, ∃ m, New oapiImpl timeoutImpl (some h) opts = Except.ok m :=
  ⟨rfl, fun _ => ⟨_, rfl⟩⟩

/-- Claim C10: an empty full-override list (also when the override option
is invoked with zero middlewares) is ignored: the chain falls back to
prepend ++ defaults ++ append; only a non-empty override takes
precedence. -/
theorem emptyOverride_ignored (o : RouterOptions) (hov : o.override = []) :
    o.middlewareChain = o.prepend ++ o.defaultMiddlewares ++ o.append ∧
    (withMiddlewareChain [] o).middlewareChain
      = o.prepend ++ o.defaultMiddlewares ++ o.append ∧
    ∀ (m : Option MW) (mws : List (Option MW)),
      (withMiddlewareChain (m :: mws) o).middlewareChain = m :: mws := by
  refine ⟨?_, ?_, ?_⟩
  · rw [RouterOptions.middlewareChain, hov]
    simp [RouterOptions.middlewareChain]
  · simp [RouterOptions.middlewareChain, withMiddlewareChain,
      RouterOptions.defaultMiddlewares]
  · intro m mws
    simp [RouterOptions.middlewareChain, withMiddlewareChain]

/-- Witness for claim C10 at the default options, whose override list is
empty. -/
theorem emptyOverride_ignored_witness :
    defaultOptions.override = [] ∧
    defaultOptions.middlewareChain
      = defaultOptions.prepend ++ defaultOptions.defaultMiddlewares ++ defaultOptions.append :=
  ⟨rfl, (emptyOverride_ignored defaultOptions rfl).1⟩


/-- The invoked-probe instrumentation of the loop equals the
specification-side execution order. -/
lemma runChecksLoop_fst (timeout : Int) :
    ∀ (checks : List (Option ProbeResult)) (idx : Nat),
      (runChecksLoop timeout idx checks).fst = probeInvocationOrder idx checks := by
  intro checks
  induction checks with
  | nil => intro idx; rfl
  | cons c rest ih =>
    intro idx
    match c with
    | none => exact ih (idx + 1)
    | some none => simp [runChecksLoop, probeInvocationOrder, ih (idx + 1)]
    | some (some e) => rfl

/-- The loop succeeds exactly when every non-nil probe succeeds. -/
lemma runChecksLoop_snd_none_iff (timeout : Int) :
    ∀ (checks : List (Option ProbeResult)) (idx : Nat),
      ((runChecksLoop timeout idx checks).snd = none ↔ allProbesOk checks = true) := by
  intro checks
  induction checks with
  | nil => intro idx; simp [runChecksLoop, allProbesOk]
  | cons c rest ih =>
    intro idx
    match c with
    | none => simpa [runChecksLoop, allProbesOk] using ih (idx + 1)
    | some none => simpa [runChecksLoop, allProbesOk] using ih (idx + 1)
    | some (some e) => simp [runChecksLoop, allProbesOk]

/-- Every invoked index is at least the starting index, and the order is
strictly increasing. -/
lemma probeInvocationOrder_mono :
    ∀ (checks : List (Option ProbeResult)) (idx : Nat),
      (probeInvocationOrder idx checks).Pairwise (fun a b => a < b) ∧
      ∀ n ∈ probeInvocationOrder idx checks, idx ≤ n := by
  intro checks
  induction checks with
  | nil => intro idx; simp [probeInvocationOrder]
  | cons c rest ih =>
    intro idx
    match c with
    | none =>
      refine ⟨(ih (idx + 1)).1, ?_⟩
      intro n hn
      exact le_trans (Nat.le_succ idx) ((ih (idx + 1)).2 n hn)
    | some none =>
      refine ⟨?_, ?_⟩
      · rw [probeInvocationOrder, List.pairwise_cons]
        exact ⟨fun n hn => lt_of_lt_of_le (Nat.lt_succ_self idx) ((ih (idx + 1)).2 n hn),
          (ih (idx + 1)).1⟩
      · intro n hn
        rw [probeInvocationOrder, List.mem_cons] at hn
        rcases hn with h | h
        · omega
        · exact le_trans (Nat.le_succ idx) ((ih (idx + 1)).2 n h)
    | some (some e) => simp [probeInvocationOrder]

/-- Claim C3: the probe batch returns nil on an empty list, invokes
exactly the non-nil probes in list order up to and including the first
failure (each exactly once), and succeeds exactly when every non-nil
probe succeeds. -/
theorem runChecks_batch (pt : Int) (checks : List (Option ProbeResult)) :
    runChecks pt [] = ([], none) ∧
    (runChecks pt checks).fst = probeInvocationOrder 0 checks ∧
    (runChecks pt checks).fst.Nodup ∧
    ((runChecks pt checks).snd = none ↔ allProbesOk checks = true) := by
  refine ⟨rfl, ?_, ?_, ?_⟩
  · cases checks with
    | nil => rfl
    | cons c rest => exact runChecksLoop_fst _ _ 0
  · cases checks with
    | nil => exact List.nodup_nil
    | cons c rest =>
      have h := runChecksLoop_fst (effProbeTimeout pt) (c :: rest) 0
      have hm := (probeInvocationOrder_mono (c :: rest) 0).1
      show (runChecksLoop (effProbeTimeout pt) 0 (c :: rest)).fst.Nodup
      rw [h]
      exact hm.imp (fun hlt => Nat.ne_of_lt hlt)
  · cases checks with
    | nil => simp [runChecks, allProbesOk]
    | cons c rest => exact runChecksLoop_snd_none_iff _ _ 0

/-- Running the loop over a prefix of passing or nil probes followed by a
failing probe stops at the failing probe, whose reported index counts all
prefix entries, nil ones included. -/
lemma runChecksLoop_firstFail (timeout : Int) :
    ∀ (pre : List (Option ProbeResult)) (idx : Nat) (err : GoErr)
      (rest : List (Option ProbeResult)),
      (∀ c ∈ pre, c = none ∨ c = some none) →
      runChecksLoop timeout idx (pre ++ some (some err) :: rest)
        = (probeInvocationOrder idx pre ++ [idx + pre.length],
           some (classifyProbeError (idx + pre.length + 1) timeout err)) := by
  intro pre
  induction pre with
  | nil =>
    intro idx err rest _
    simp [runChecksLoop, probeInvocationOrder]
  | cons c cs ih =>
    intro idx err rest hpre
    have hc := hpre c (List.mem_cons_self c cs)
    have hcs : ∀ x ∈ cs, x = none ∨ x = some none :=
      fun x hx => hpre x (List.mem_cons_of_mem c hx)
    rcases hc with h | h <;> subst h
    · show runChecksLoop timeout (idx + 1) (cs ++ some (some err) :: rest) = _
      rw [ih (idx + 1) err rest hcs]
      have : idx + 1 + cs.length = idx + (cs.length + 1) := by omega
      simp [probeInvocationOrder, List.length_cons, this]
    · show (idx :: (runChecksLoop timeout (idx + 1) (cs ++ some (some err) :: rest)).fst,
          (runChecksLoop timeout (idx + 1) (cs ++ some (some err) :: rest)).snd) = _
      rw [ih (idx + 1) err rest hcs]
      have : idx + 1 + cs.length = idx + (cs.length + 1) := by omega
      simp [probeInvocationOrder, List.length_cons, this]


/-- Every error is a member of its own unwrap chain. -/
lemma self_mem_unwrapChain (e : GoErr) : e ∈ unwrapChain e := by
  cases e <;> simp [unwrapChain]

/-- A pattern occurring as a middle segment is found by the substring
test. -/
lemma listContainsSub_append (a p b : List Char) :
    listContainsSub (a ++ p ++ b) p = true := by
  unfold listContainsSub
  rw [List.any_eq_true]
  refine ⟨a.length, ?_, ?_⟩
  · rw [List.mem_range]
    simp only [List.length_append]
    omega
  · rw [decide_eq_true_eq, List.append_assoc, List.drop_left, List.take_left]

/-- String-level middle-segment containment. -/
lemma strContains_append (x pat y : String) :
    strContains (x ++ pat ++ y) pat = true := by
  unfold strContains
  rw [String.data_append, String.data_append]
  exact listContainsSub_append x.data pat.data y.data

/-- A single space, used to split message literals. -/
def spaceStr : String := " "

/-- The pattern the spec requires in deadline-exceeded reports. -/
def timedOutPat : String := "timed out"

/-- The fragment following the timeout pattern in the report. -/
def afterPart : String := " after "

/-- The pattern the spec requires in cancellation reports. -/
def cancelledPat : String := "was cancelled"

/-- The empty string. -/
def emptyStr : String := ""

/-- The timeout report contains the words "timed out" for every index and
duration. -/
lemma timedOut_msg_contains (n : Nat) (t : Int) :
    strContains (probeWord ++ toString n ++ timedOutAfter ++ durationString t) timedOutPat
      = true := by
  have hsplit : timedOutAfter = spaceStr ++ timedOutPat ++ afterPart := by decide
  have hre : probeWord ++ toString n ++ timedOutAfter ++ durationString t
      = (probeWord ++ toString n ++ spaceStr) ++ timedOutPat
        ++ (afterPart ++ durationString t) := by
    rw [hsplit]
    apply String.ext
    simp [String.data_append, List.append_assoc]
  rw [hre]
  exact strContains_append _ _ _

/-- The cancellation report contains the words "was cancelled" for every
index. -/
lemma cancelled_msg_contains (n : Nat) :
    strContains (probeWord ++ toString n ++ wasCancelled) cancelledPat = true := by
  have hsplit : wasCancelled = spaceStr ++ cancelledPat ++ emptyStr := by decide
  have hre : probeWord ++ toString n ++ wasCancelled
      = (probeWord ++ toString n ++ spaceStr) ++ cancelledPat ++ emptyStr := by
    rw [hsplit]
    apply String.ext
    simp [String.data_append, List.append_assoc]
  rw [hre]
  exact strContains_append _ _ _

/-- The message of the timeout counterexample below. -/
def c4TimeoutMsg : String := "probe 1 timed out after 5ns"

/-- Counterexample to claim C4: a probe failing with the deadline-exceeded
sentinel is reported as a fresh flat error; the original error is not
reachable from the report through the unwrap/cause chain. -/
theorem probe_deadline_not_wrapped :
    (runChecks 5 [some (some GoErr.deadlineExceeded)]).snd
      = some (GoErr.errorString c4TimeoutMsg) ∧
    GoErr.deadlineExceeded ∉ unwrapChain (GoErr.errorString c4TimeoutMsg) := by
  decide

/-- Claim C4 (amended): the orchestrator classifies the first failing
probe's error: a deadline-exceeded condition is reported with a message
containing "timed out", a cancellation condition with "was cancelled",
and any other error as "probe N failed: <original error>"; the original
error remains reachable through the unwrap chain in the generic case only
(the deadline and cancellation reports are fresh errors that do not wrap
the original). -/
theorem probe_error_classification (pt : Int) (pre rest : List (Option ProbeResult))
    (err : GoErr)
    (hpre : ∀ c ∈ pre, c = none ∨ c = some none) :
    (runChecks pt (pre ++ some (some err) :: rest)).snd
      = some (classifyProbeError (pre.length + 1) (effProbeTimeout pt) err) ∧
    (errorsIs err GoErr.deadlineExceeded = true →
      strContains (errMsg (classifyProbeError (pre.length + 1) (effProbeTimeout pt) err))
        timedOutPat = true) ∧
    (errorsIs err GoErr.deadlineExceeded = false → errorsIs err GoErr.canceled = true →
      strContains (errMsg (classifyProbeError (pre.length + 1) (effProbeTimeout pt) err))
        cancelledPat = true) ∧
    (errorsIs err GoErr.deadlineExceeded = false → errorsIs err GoErr.canceled = false →
      errMsg (classifyProbeError (pre.length + 1) (effProbeTimeout pt) err)
          = probeWord ++ toString (pre.length + 1) ++ failedSep ++ errMsg err ∧
      err ∈ unwrapChain (classifyProbeError (pre.length + 1) (effProbeTimeout pt) err)) := by
  refine ⟨?_, ?_, ?_, ?_⟩
  · show (runChecks pt (pre ++ some (some err) :: rest)).snd = _
    rw [runChecks]
    have hne : (pre ++ some (some err) :: rest).length = 0 ↔ False := by
      simp [List.length_append]
    rw [if_neg (by simp [List.length_append])]
    rw [runChecksLoop_firstFail (effProbeTimeout pt) pre 0 err rest hpre]
    simp
  · intro hd
    rw [classifyProbeError, if_pos hd]
    exact timedOut_msg_contains (pre.length + 1) (effProbeTimeout pt)
  · intro hd hc
    rw [classifyProbeError, if_neg (by simp [hd]), if_pos hc]
    exact cancelled_msg_contains (pre.length + 1)
  · intro hd hc
    rw [classifyProbeError, if_neg (by simp [hd]), if_neg (by simp [hc])]
    refine ⟨?_, ?_⟩
    · simp [errMsg, String.ext_iff, String.data_append, List.append_assoc]
    · simp [unwrapChain, self_mem_unwrapChain]

/-- A plain probe failure message used by the witnesses. -/
def boomStr : String := "boom"

/-- Witness for claim C4 (amended) with an empty prefix and a generic
failure. -/
theorem probe_error_classification_witness :
    (∀ c ∈ ([] : List (Option ProbeResult)), c = none ∨ c = some none) ∧
    (runChecks 5 ([] ++ some (some (GoErr.errorString boomStr)) :: [])).snd
      = some (classifyProbeError (List.length ([] : List (Option ProbeResult)) + 1)
          (effProbeTimeout 5) (GoErr.errorString boomStr)) :=
  ⟨fun c hc => absurd hc (List.not_mem_nil c),
   (probe_error_classification 5 [] [] (GoErr.errorString boomStr)
     (fun c hc => absurd hc (List.not_mem_nil c))).1⟩


/-- The probe list of the C5 counterexample: a nil entry followed by a
failing probe, as a caller would pass it to the liveness option. -/
def c5Checks : List (Option ProbeResult) := [none, some (some (GoErr.errorString boomStr))]

/-- An info handler fixture with default probe timeout and no checks. -/
def ih0 : InfoHandler :=
  { probeTimeout := defaultProbeTimeout, livenessChecks := [], readinessChecks := [] }

/-- Report prefix naming probe one. -/
def probe1FailedMsg : String := "probe 1 failed: "

/-- Report prefix naming probe two. -/
def probe2FailedMsg : String := "probe 2 failed: "

/-- The index mention the claim expects for the counterexample list. -/
def probe2Pat : String := "probe 2"

/-- Counterexample to claim C5: the caller supplies `[nil, failing]`
through the liveness option.  The claim demands index 2 (the failing
probe's position in the original list, nils counted), but the option
filters out nil entries before storage, so the orchestrator reports
probe 1.  Running the orchestrator on the original list directly does
report probe 2. -/
theorem probe_index_filtered_counterexample :
    (runChecks ih0.probeTimeout ((withLivenessChecks c5Checks ih0).livenessChecks)).snd
      = some (GoErr.wrapf probe1FailedMsg (GoErr.errorString boomStr)) ∧
    strContains (errMsg (GoErr.wrapf probe1FailedMsg (GoErr.errorString boomStr)))
      probe2Pat = false ∧
    (runChecks ih0.probeTimeout c5Checks).snd
      = some (GoErr.wrapf probe2FailedMsg (GoErr.errorString boomStr)) := by
  decide

/-- Claim C5 (amended): the reported index is the failing probe's 1-based
position in the list handed to the orchestrator, with nil entries counted
in position.  The liveness/readiness options, however, store the supplied
list with nil entries removed, so for probe lists supplied through them
the index refers to the position among the caller's non-nil probes. -/
theorem probe_index_positions (pt : Int) (pre rest checks : List (Option ProbeResult))
    (err : GoErr) (handler : InfoHandler)
    (hpre : ∀ c ∈ pre, c = none ∨ c = some none) :
    (runChecks pt (pre ++ some (some err) :: rest)).snd
      = some (classifyProbeError (pre.length + 1) (effProbeTimeout pt) err) ∧
    (withLivenessChecks checks handler).livenessChecks
      = checks.filter (fun c => c.isSome) ∧
    (withReadinessChecks checks handler).readinessChecks
      = checks.filter (fun c => c.isSome) := by
  refine ⟨?_, ?_, ?_⟩
  · rw [runChecks, if_neg (by simp [List.length_append])]
    rw [runChecksLoop_firstFail (effProbeTimeout pt) pre 0 err rest hpre]
    simp
  · show filterProbes checks = checks.filter (fun c => c.isSome)
    cases checks with
    | nil => rfl
    | cons c cs => rfl
  · show filterProbes checks = checks.filter (fun c => c.isSome)
    cases checks with
    | nil => rfl
    | cons c cs => rfl

/-- Witness for claim C5 (amended): the failing probe sits after one nil
entry and one passing probe, and is reported as probe 3. -/
theorem probe_index_positions_witness :
    (∀ c ∈ [none, some (none : ProbeResult)], c = none ∨ c = some none) ∧
    (runChecks 5 ([none, some (none : ProbeResult)]
        ++ some (some (GoErr.errorString boomStr)) :: [])).snd
      = some (classifyProbeError ([none, some (none : ProbeResult)].length + 1)
          (effProbeTimeout 5) (GoErr.errorString boomStr)) :=
  ⟨by decide,
   (probe_index_positions 5 [none, some none] [] [] (GoErr.errorString boomStr) ih0
     (by decide)).1⟩


/-- Finding in a list extended by one unmatched element is finding in the
list. -/
lemma find?_append_single {α : Type} (q : α → Bool) (x : α) (hqx : q x = false) :
    ∀ l : List α, (l ++ [x]).find? q = l.find? q := by
  intro l
  induction l with
  | nil => simp [List.find?, hqx]
  | cons a as ih =>
    cases ha : q a with
    | true => simp [List.find?_cons, ha]
    | false => simp [List.find?_cons, ha, ih]

/-- Finding skips a left part in which nothing matches. -/
lemma find?_append_left_none {α : Type} (q : α → Bool) :
    ∀ l1 l2 : List α, l1.find? q = none → (l1 ++ l2).find? q = l2.find? q := by
  intro l1
  induction l1 with
  | nil => intro l2 _; rfl
  | cons a as ih =>
    intro l2 h
    cases ha : q a with
    | true => simp [List.find?_cons, ha] at h
    | false =>
      simp only [List.find?_cons, ha] at h
      simp [List.find?_cons, ha, ih l2 h]

/-- Replacing the bindings of one key does not affect finding a different
key. -/
lemma find?_map_set (k k2 : String) (v : List String) (hne : (k2 == k) = false) :
    ∀ hs : Headers,
      (hs.map (fun p => if p.fst == k2 then (k2, v) else p)).find? (fun p => p.fst == k)
        = hs.find? (fun p => p.fst == k) := by
  intro hs
  induction hs with
  | nil => rfl
  | cons p ps ih =>
    rw [List.map_cons]
    cases hp2 : (p.fst == k2) with
    | true =>
      have hpk : (p.fst == k) = false := by
        have hpe : p.fst = k2 := eq_of_beq hp2
        rw [hpe]
        exact hne
      have h1 : ¬ (fun q : String × List String => q.fst == k) (k2, v) = true := by
        simp [hne]
      have h2 : ¬ (fun q : String × List String => q.fst == k) p = true := by
        simp [hpk]
      rw [if_pos rfl,
        @List.find?_cons_of_neg _ (fun q : String × List String => q.fst == k) (k2, v) _ h1,
        ih,
        (@List.find?_cons_of_neg _ (fun q : String × List String => q.fst == k) p ps h2).symm]
    | false =>
      rw [if_neg (by simp)]
      cases hpk : (p.fst == k) with
      | true =>
        have h3 : (fun q : String × List String => q.fst == k) p = true := hpk
        rw [@List.find?_cons_of_pos _ (fun q : String × List String => q.fst == k) p _ h3,
          @List.find?_cons_of_pos _ (fun q : String × List String => q.fst == k) p ps h3]
      | false =>
        have h2 : ¬ (fun q : String × List String => q.fst == k) p = true := by
          simp [hpk]
        rw [@List.find?_cons_of_neg _ (fun q : String × List String => q.fst == k) p _ h2, ih,
          (@List.find?_cons_of_neg _ (fun q : String × List String => q.fst == k) p ps h2).symm]

/-- Replacing the bindings of a key present in the map makes that key find
the new binding. -/
lemma find?_map_set_self (k : String) (v : List String) :
    ∀ hs : Headers, hs.any (fun p => p.fst == k) = true →
      (hs.map (fun p => if p.fst == k then (k, v) else p)).find? (fun p => p.fst == k)
        = some (k, v) := by
  intro hs
  induction hs with
  | nil => intro h; simp at h
  | cons p ps ih =>
    intro h
    rw [List.map_cons]
    cases hp : (p.fst == k) with
    | true =>
      have h4 : (fun q : String × List String => q.fst == k) (k, v) = true := by
        simp
      rw [if_pos rfl,
        @List.find?_cons_of_pos _ (fun q : String × List String => q.fst == k) (k, v) _ h4]
    | false =>
      have hps : ps.any (fun p => p.fst == k) = true := by
        simpa [List.any_cons, hp] using h
      have h2 : ¬ (fun q : String × List String => q.fst == k) p = true := by
        simp [hp]
      rw [if_neg (by simp),
        @List.find?_cons_of_neg _ (fun q : String × List String => q.fst == k) p _ h2, ih hps]

/-- A map with no matching binding finds nothing. -/
lemma find?_eq_none_of_any_false {α : Type} (q : α → Bool) (l : List α)
    (h : l.any q = false) : l.find? q = none := by
  rw [List.find?_eq_none]
  intro x hx
  rw [List.any_eq_false] at h
  exact h x hx

/-- Looking up the key just set yields the new value list. -/
lemma headerValues_setAssoc_self (hs : Headers) (k : String) (v : List String) :
    headerValues (setAssoc hs k v) k = some v := by
  unfold setAssoc headerValues
  cases hany : hs.any (fun p => p.fst == k) with
  | true =>
    rw [if_pos rfl, find?_map_set_self k v hs hany]
  | false =>
    have hnone : hs.find? (fun p => p.fst == k) = none :=
      find?_eq_none_of_any_false _ hs hany
    have h4 : (fun q : String × List String => q.fst == k) (k, v) = true := by
      simp
    rw [if_neg (by simp),
      find?_append_left_none (fun p => p.fst == k) hs [(k, v)] hnone,
      @List.find?_cons_of_pos _ (fun q : String × List String => q.fst == k) (k, v) [] h4]

/-- Setting one key leaves lookups of a different key unchanged. -/
lemma headerValues_setAssoc_ne (hs : Headers) (k k2 : String) (v : List String)
    (hne : (k2 == k) = false) :
    headerValues (setAssoc hs k2 v) k = headerValues hs k := by
  unfold setAssoc headerValues
  cases hany : hs.any (fun p => p.fst == k2) with
  | true =>
    rw [if_pos rfl, find?_map_set k k2 v hne hs]
  | false =>
    rw [if_neg (by simp),
      find?_append_single (fun p => p.fst == k) ((k2, v)) (by simpa using hne) hs]


/-- Redaction leaves keys canonically different from every configured
name untouched. -/
lemma redactHeaders_other (k : String) :
    ∀ (names : List String) (hs : Headers),
      (∀ m ∈ names, (canonicalHeaderKey m == k) = false) →
      headerValues (redactHeaders hs names) k = headerValues hs k := by
  intro names
  induction names with
  | nil => intro hs _; rfl
  | cons m ms ih =>
    intro hs hne
    have hm := hne m (List.mem_cons_self m ms)
    have hms : ∀ x ∈ ms, (canonicalHeaderKey x == k) = false :=
      fun x hx => hne x (List.mem_cons_of_mem m hx)
    show headerValues (redactHeaders (redactStep hs m) ms) k = headerValues hs k
    rw [ih (redactStep hs m) hms]
    unfold redactStep
    cases hlv : headerValues hs (canonicalHeaderKey m) with
    | none => rfl
    | some values => exact headerValues_setAssoc_ne hs k (canonicalHeaderKey m) _ hm

/-- When the configured names have pairwise different canonical forms, a
name bound in the header map ends up bound to exactly one placeholder
recording the total byte length of its original values. -/
lemma redactHeaders_lookup :
    ∀ (names : List String) (hs : Headers) (name : String) (vals : List String),
      (names.map canonicalHeaderKey).Nodup →
      name ∈ names →
      headerValues hs (canonicalHeaderKey name) = some vals →
      headerValues (redactHeaders hs names) (canonicalHeaderKey name)
        = some [redactedPlaceholder (totalByteLen vals)] := by
  intro names
  induction names with
  | nil => intro hs name vals _ hmem; exact absurd hmem (List.not_mem_nil name)
  | cons m ms ih =>
    intro hs name vals hnd hmem hlook
    rw [List.map_cons, List.nodup_cons] at hnd
    obtain ⟨hnotin, hndms⟩ := hnd
    show headerValues (redactHeaders (redactStep hs m) ms) (canonicalHeaderKey name) = _
    rcases List.mem_cons.mp hmem with heq | hmems
    · rw [← heq] at hnotin
      rw [show redactStep hs m = redactStep hs name from by rw [heq]]
      have hstep : redactStep hs name
          = setAssoc hs (canonicalHeaderKey name)
              [redactedPlaceholder (totalByteLen vals)] := by
        unfold redactStep
        rw [hlook]
      rw [hstep]
      have hoth : ∀ x ∈ ms, (canonicalHeaderKey x == canonicalHeaderKey name) = false := by
        intro x hx
        cases hb : canonicalHeaderKey x == canonicalHeaderKey name with
        | false => rfl
        | true =>
          exact absurd (by rw [← eq_of_beq hb]; exact List.mem_map_of_mem _ hx) hnotin
      rw [redactHeaders_other (canonicalHeaderKey name) ms _ hoth]
      exact headerValues_setAssoc_self hs (canonicalHeaderKey name) _
    · have hne2 : (canonicalHeaderKey m == canonicalHeaderKey name) = false := by
        cases hb : canonicalHeaderKey m == canonicalHeaderKey name with
        | false => rfl
        | true =>
          exact absurd (by rw [eq_of_beq hb]; exact List.mem_map_of_mem _ hmems) hnotin
      have hlook2 : headerValues (redactStep hs m) (canonicalHeaderKey name) = some vals := by
        unfold redactStep
        cases hlv : headerValues hs (canonicalHeaderKey m) with
        | none => exact hlook
        | some values =>
          rw [headerValues_setAssoc_ne hs (canonicalHeaderKey name) (canonicalHeaderKey m) _ hne2]
          exact hlook
      exact ih (redactStep hs m) name vals hndms hmems hlook2


/-- A defensive header copy is the identity on the list value. -/
lemma cloneHeaders_eq (hs : Headers) : cloneHeaders hs = hs := by
  simp [cloneHeaders]

/-- The path fixture for the logging claims. -/
def rootPath : String := "/"

/-- The redacted header name fixture. -/
def hdrAuth : String := "Authorization"

/-- The value that is its own redaction placeholder: it is 21 bytes long
and the placeholder for 21 bytes is this very string. -/
def fixedPointVal : String := "[REDACTED - 21 bytes]"

/-- A redacted header name fixture in canonical case. -/
def hdrXToken : String := "X-Token"

/-- The same name in lower case. -/
def hdrXTokenLower : String := "x-token"

/-- A twelve-byte secret fixture. -/
def secretVal : String := "secretsecret"

/-- A pass-through handler fixture. -/
def idHandler : HandlerT := fun _ w => w

/-- Request fixture carrying the placeholder fixed point as the value of
the redacted header. -/
def c8Req : Request :=
  { method := methodOptions, path := rootPath,
    headers := [(hdrAuth, [fixedPointVal])], contentLength := 0 }

/-- Counterexample to claim C8.  Two independent violations of the claim
as stated: first, when a header's value is itself the placeholder string
for its own byte length (21 bytes), the emitted record contains the
header's original value verbatim; second, when the redaction list names
the same header twice (case variants), the placeholder is applied twice
and records the byte length of the first placeholder (21) rather than the
total byte length of the original values (12). -/
theorem logging_redaction_counterexample :
    (loggingMiddleware { tok := 0 } [] [hdrAuth] idHandler c8Req w0).logs
      = [logRecordOf c8Req [hdrAuth]] ∧
    headerValues (logRecordOf c8Req [hdrAuth]).headers (canonicalHeaderKey hdrAuth)
      = some [fixedPointVal] ∧
    headerValues c8Req.headers (canonicalHeaderKey hdrAuth) = some [fixedPointVal] ∧
    redactHeaders [(hdrXToken, [secretVal])] [hdrXToken, hdrXTokenLower]
      = [(hdrXToken, [redactedPlaceholder 21])] ∧
    totalByteLen [secretVal] = 12 ∧
    redactedPlaceholder 12 ≠ redactedPlaceholder 21 := by
  decide

/-- Claim C8 (amended): for a logged request and a redacted header name
that matches a request header (via canonical, case-insensitive keys),
when the configured redaction names have pairwise distinct canonical
forms, the emitted record binds that header to a single placeholder
encoding the total byte length of the original values; an original value
can therefore only reappear in the record when it is itself exactly that
placeholder string. -/
theorem logging_redaction (logger : Logger) (quiet hide : List String) (next : HandlerT)
    (r : Request) (w : World) (hideName : String) (vals : List String)
    (hq : shouldQuietRoute r.path quiet = false)
    (hnd : (hide.map canonicalHeaderKey).Nodup)
    (hmem : hideName ∈ hide)
    (hfound : headerValues r.headers (canonicalHeaderKey hideName) = some vals) :
    loggingMiddleware logger quiet hide next r w
      = next r { w with logs := w.logs ++ [logRecordOf r hide] } ∧
    headerValues (logRecordOf r hide).headers (canonicalHeaderKey hideName)
      = some [redactedPlaceholder (totalByteLen vals)] ∧
    (∀ v ∈ vals, ∀ vs2,
      headerValues (logRecordOf r hide).headers (canonicalHeaderKey hideName) = some vs2 →
      v ∈ vs2 → v = redactedPlaceholder (totalByteLen vals)) := by
  have hrec : headerValues (logRecordOf r hide).headers (canonicalHeaderKey hideName)
      = some [redactedPlaceholder (totalByteLen vals)] := by
    show headerValues (redactHeaders (cloneHeaders r.headers) hide) (canonicalHeaderKey hideName)
        = some [redactedPlaceholder (totalByteLen vals)]
    rw [cloneHeaders_eq]
    exact redactHeaders_lookup hide r.headers hideName vals hnd hmem hfound
  refine ⟨?_, hrec, ?_⟩
  · simp [loggingMiddleware, hq]
  · intro v _ vs2 hvs2 hvmem
    rw [hrec] at hvs2
    cases hvs2
    simpa using hvmem

/-- Request fixture for the C8 witness: a twelve-byte secret under the
redacted header. -/
def c8wReq : Request :=
  { method := methodOptions, path := rootPath,
    headers := [(hdrAuth, [secretVal])], contentLength := 0 }

/-- Witness for claim C8 (amended) at a concrete request and redaction
list. -/
theorem logging_redaction_witness :
    shouldQuietRoute c8wReq.path [] = false ∧
    ([hdrAuth].map canonicalHeaderKey).Nodup ∧
    hdrAuth ∈ [hdrAuth] ∧
    headerValues c8wReq.headers (canonicalHeaderKey hdrAuth) = some [secretVal] ∧
    (loggingMiddleware { tok := 0 } [] [hdrAuth] idHandler c8wReq w0
        = idHandler c8wReq { w0 with logs := w0.logs ++ [logRecordOf c8wReq [hdrAuth]] } ∧
      headerValues (logRecordOf c8wReq [hdrAuth]).headers (canonicalHeaderKey hdrAuth)
        = some [redactedPlaceholder (totalByteLen [secretVal])] ∧
      (∀ v ∈ [secretVal], ∀ vs2,
        headerValues (logRecordOf c8wReq [hdrAuth]).headers (canonicalHeaderKey hdrAuth)
            = some vs2 →
        v ∈ vs2 → v = redactedPlaceholder (totalByteLen [secretVal]))) :=
  ⟨by decide, by decide, by decide, by decide,
   logging_redaction { tok := 0 } [] [hdrAuth] idHandler c8wReq w0 hdrAuth [secretVal]
     (by decide) (by decide) (by decide) (by decide)⟩


/-- Writing a status does not change the headers. -/
lemma writeHeader_headers (x : RespWriter) (code : Nat) :
    (writeHeader x code).headers = x.headers := by
  unfold writeHeader
  cases x.status <;> rfl

/-- Setting a header does not change the status. -/
lemma setHeader_status (x : RespWriter) (k v : String) :
    (setHeader x k v).status = x.status := rfl

/-- Writing a status on a fresh writer records that status. -/
lemma writeHeader_status_of_none (x : RespWriter) (code : Nat) (h : x.status = none) :
    (writeHeader x code).status = some code := by
  unfold writeHeader
  rw [h]

/-- The world after the origin-reflection step of the CORS stage. -/
def allowOriginWorld (cfg : CORSConfig) (w : World) (origin : String) : World :=
  if allowedOrigin origin cfg.origins then
    { w with writer := setHeader (setHeader w.writer hdrACAO origin) hdrVary hdrOrigin }
  else w

/-- The conditional allow-credentials header write of the CORS stage. -/
def credHeaderSet (cfg : CORSConfig) (wr : RespWriter) : RespWriter :=
  if cfg.allowCredentials then setHeader wr hdrACAC valTrue else wr

/-- The world produced by the CORS stage when it terminates a preflight
request itself. -/
def corsPreflightWorld (cfg : CORSConfig) (w : World) (origin : String) : World :=
  { allowOriginWorld cfg w origin with
    writer := writeHeader
      (credHeaderSet cfg
        (setHeader
          (setHeader (allowOriginWorld cfg w origin).writer hdrACAM
            (String.intercalate commaSep cfg.methods))
          hdrACAH (String.intercalate commaSep cfg.headers)))
      200 }

/-- On a preflight request with a non-empty Origin header and an active
policy, the CORS stage computes `corsPreflightWorld`, independently of the
wrapped handler. -/
lemma corsMiddleware_preflight_eq (cfg : CORSConfig) (next : HandlerT)
    (r : Request) (w : World) (origin : String)
    (hor : cfg.origins ≠ [])
    (hm : r.method = methodOptions)
    (ho : headerGet r.headers hdrOrigin = origin)
    (hne : origin ≠ "") :
    corsMiddleware cfg next r w = corsPreflightWorld cfg w origin := by
  have hlf : ¬ (cloneStrings cfg.origins).length = 0 := by
    intro hl
    exact hor (List.length_eq_zero.mp hl)
  unfold corsMiddleware
  rw [if_neg hlf]
  show (let origin0 := headerGet r.headers hdrOrigin
    if origin0 = "" then next r w
    else
      let world1 :=
        if allowedOrigin origin0 (cloneStrings cfg.origins) then
          { w with writer := setHeader (setHeader w.writer hdrACAO origin0) hdrVary hdrOrigin }
        else w
      if r.method = methodOptions then
        let w1 := setHeader world1.writer hdrACAM
          (String.intercalate commaSep (cloneStrings cfg.methods))
        let w2 := setHeader w1 hdrACAH (String.intercalate commaSep (cloneStrings cfg.headers))
        let w3 := if cfg.allowCredentials then setHeader w2 hdrACAC valTrue else w2
        { world1 with writer := writeHeader w3 200 }
      else next r world1) = corsPreflightWorld cfg w origin
  rw [ho]
  rw [if_neg hne, hm, if_pos rfl]
  rfl

/-- Claim C6: on a preflight (`OPTIONS`) request carrying a non-empty
Origin header, an active CORS stage terminates the request itself: the
result does not depend on the wrapped handler, the status is 200, the
allow-methods and allow-headers headers are written, the
allow-credentials header is written when credentials are enabled, the
origin is reflected in the allow-origin header when allowed, and the
stage has no handler side effects (logs and trace are untouched; the
response is a pure function of the stage configuration and request, so
repeating the preflight reproduces identical headers). -/
theorem cors_preflight_terminates (cfg : CORSConfig) (next next2 : HandlerT)
    (r : Request) (w : World) (origin : String)
    (hor : cfg.origins ≠ [])
    (hm : r.method = methodOptions)
    (ho : headerGet r.headers hdrOrigin = origin)
    (hne : origin ≠ "")
    (hst : w.writer.status = none) :
    corsMiddleware cfg next r w = corsMiddleware cfg next2 r w ∧
    (corsMiddleware cfg next r w).writer.status = some 200 ∧
    headerValues (corsMiddleware cfg next r w).writer.headers (canonicalHeaderKey hdrACAM)
      = some [String.intercalate commaSep cfg.methods] ∧
    headerValues (corsMiddleware cfg next r w).writer.headers (canonicalHeaderKey hdrACAH)
      = some [String.intercalate commaSep cfg.headers] ∧
    (cfg.allowCredentials = true →
      headerValues (corsMiddleware cfg next r w).writer.headers (canonicalHeaderKey hdrACAC)
        = some [valTrue]) ∧
    (allowedOrigin origin cfg.origins = true →
      headerValues (corsMiddleware cfg next r w).writer.headers (canonicalHeaderKey hdrACAO)
        = some [origin]) ∧
    (corsMiddleware cfg next r w).logs = w.logs ∧
    (corsMiddleware cfg next r w).trace = w.trace := by
  have hnf := corsMiddleware_preflight_eq cfg next r w origin hor hm ho hne
  have hnf2 := corsMiddleware_preflight_eq cfg next2 r w origin hor hm ho hne
  rw [hnf, hnf2]
  have bMH : (canonicalHeaderKey hdrACAH == canonicalHeaderKey hdrACAM) = false := by decide
  have bCM : (canonicalHeaderKey hdrACAC == canonicalHeaderKey hdrACAM) = false := by decide
  have bCH : (canonicalHeaderKey hdrACAC == canonicalHeaderKey hdrACAH) = false := by decide
  have bMO : (canonicalHeaderKey hdrACAM == canonicalHeaderKey hdrACAO) = false := by decide
  have bHO : (canonicalHeaderKey hdrACAH == canonicalHeaderKey hdrACAO) = false := by decide
  have bCO : (canonicalHeaderKey hdrACAC == canonicalHeaderKey hdrACAO) = false := by decide
  have bVO : (canonicalHeaderKey hdrVary == canonicalHeaderKey hdrACAO) = false := by decide
  have hAstatus : (allowOriginWorld cfg w origin).writer.status = none := by
    unfold allowOriginWorld
    cases hAl : allowedOrigin origin cfg.origins with
    | true => rw [if_pos rfl]; exact hst
    | false => rw [if_neg (by simp)]; exact hst
  refine ⟨rfl, ?_, ?_, ?_, ?_, ?_, ?_, ?_⟩
  · show (writeHeader (credHeaderSet cfg _) 200).status = some 200
    apply writeHeader_status_of_none
    unfold credHeaderSet
    cases hCr : cfg.allowCredentials with
    | true => rw [if_pos rfl, setHeader_status, setHeader_status, setHeader_status]; exact hAstatus
    | false => rw [if_neg (by simp), setHeader_status, setHeader_status]; exact hAstatus
  · show headerValues (writeHeader (credHeaderSet cfg _) 200).headers _ = _
    rw [writeHeader_headers]
    unfold credHeaderSet
    cases hCr : cfg.allowCredentials with
    | true =>
      rw [if_pos rfl]
      show headerValues (setAssoc _ (canonicalHeaderKey hdrACAC) [valTrue])
          (canonicalHeaderKey hdrACAM) = _
      rw [headerValues_setAssoc_ne _ _ _ _ bCM]
      show headerValues (setAssoc _ (canonicalHeaderKey hdrACAH) _)
          (canonicalHeaderKey hdrACAM) = _
      rw [headerValues_setAssoc_ne _ _ _ _ bMH]
      exact headerValues_setAssoc_self _ _ _
    | false =>
      rw [if_neg (by simp)]
      show headerValues (setAssoc _ (canonicalHeaderKey hdrACAH) _)
          (canonicalHeaderKey hdrACAM) = _
      rw [headerValues_setAssoc_ne _ _ _ _ bMH]
      exact headerValues_setAssoc_self _ _ _
  · show headerValues (writeHeader (credHeaderSet cfg _) 200).headers _ = _
    rw [writeHeader_headers]
    unfold credHeaderSet
    cases hCr : cfg.allowCredentials with
    | true =>
      rw [if_pos rfl]
      show headerValues (setAssoc _ (canonicalHeaderKey hdrACAC) [valTrue])
          (canonicalHeaderKey hdrACAH) = _
      rw [headerValues_setAssoc_ne _ _ _ _ bCH]
      exact headerValues_setAssoc_self _ _ _
    | false =>
      rw [if_neg (by simp)]
      exact headerValues_setAssoc_self _ _ _
  · intro hCr
    show headerValues (writeHeader (credHeaderSet cfg _) 200).headers _ = _
    rw [writeHeader_headers]
    unfold credHeaderSet
    rw [hCr, if_pos rfl]
    exact headerValues_setAssoc_self _ _ _
  · intro hAl
    show headerValues (writeHeader (credHeaderSet cfg _) 200).headers _ = _
    rw [writeHeader_headers]
    have hbase : headerValues (allowOriginWorld cfg w origin).writer.headers
        (canonicalHeaderKey hdrACAO) = some [origin] := by
      unfold allowOriginWorld
      rw [hAl, if_pos rfl]
      show headerValues (setAssoc _ (canonicalHeaderKey hdrVary) _)
          (canonicalHeaderKey hdrACAO) = _
      rw [headerValues_setAssoc_ne _ _ _ _ bVO]
      exact headerValues_setAssoc_self _ _ _
    unfold credHeaderSet
    cases hCr : cfg.allowCredentials with
    | true =>
      rw [if_pos rfl]
      show headerValues (setAssoc _ (canonicalHeaderKey hdrACAC) [valTrue])
          (canonicalHeaderKey hdrACAO) = _
      rw [headerValues_setAssoc_ne _ _ _ _ bCO]
      show headerValues (setAssoc _ (canonicalHeaderKey hdrACAH) _)
          (canonicalHeaderKey hdrACAO) = _
      rw [headerValues_setAssoc_ne _ _ _ _ bHO]
      show headerValues (setAssoc _ (canonicalHeaderKey hdrACAM) _)
          (canonicalHeaderKey hdrACAO) = _
      rw [headerValues_setAssoc_ne _ _ _ _ bMO]
      exact hbase
    | false =>
      rw [if_neg (by simp)]
      show headerValues (setAssoc _ (canonicalHeaderKey hdrACAH) _)
          (canonicalHeaderKey hdrACAO) = _
      rw [headerValues_setAssoc_ne _ _ _ _ bHO]
      show headerValues (setAssoc _ (canonicalHeaderKey hdrACAM) _)
          (canonicalHeaderKey hdrACAO) = _
      rw [headerValues_setAssoc_ne _ _ _ _ bMO]
      exact hbase
  · show (corsPreflightWorld cfg w origin).logs = w.logs
    unfold corsPreflightWorld allowOriginWorld
    cases hAl : allowedOrigin origin cfg.origins with
    | true => rw [if_pos rfl]
    | false => rw [if_neg (by simp)]
  · show (corsPreflightWorld cfg w origin).trace = w.trace
    unfold corsPreflightWorld allowOriginWorld
    cases hAl : allowedOrigin origin cfg.origins with
    | true => rw [if_pos rfl]
    | false => rw [if_neg (by simp)]


/-- A method literal for the CORS witness. -/
def methodGET : String := "GET"

/-- An origin literal for the CORS witness. -/
def exOrigin : String := "https://example.com"

/-- CORS policy fixture for the witness: wildcard origin, credentials
enabled. -/
def cfgW : CORSConfig :=
  { headers := [hdrXToken], methods := [methodGET], origins := [wildcardOrigin],
    allowCredentials := true }

/-- Preflight request fixture for the CORS witness. -/
def c6Req : Request :=
  { method := methodOptions, path := rootPath,
    headers := [(hdrOrigin, [exOrigin])], contentLength := 0 }

/-- Witness for claim C6 at a concrete policy, request and fresh world. -/
theorem cors_preflight_terminates_witness :
    cfgW.origins ≠ [] ∧
    c6Req.method = methodOptions ∧
    headerGet c6Req.headers hdrOrigin = exOrigin ∧
    exOrigin ≠ "" ∧
    w0.writer.status = none ∧
    (corsMiddleware cfgW h0 c6Req w0 = corsMiddleware cfgW idHandler c6Req w0 ∧
      (corsMiddleware cfgW h0 c6Req w0).writer.status = some 200 ∧
      headerValues (corsMiddleware cfgW h0 c6Req w0).writer.headers
          (canonicalHeaderKey hdrACAM)
        = some [String.intercalate commaSep cfgW.methods] ∧
      headerValues (corsMiddleware cfgW h0 c6Req w0).writer.headers
          (canonicalHeaderKey hdrACAH)
        = some [String.intercalate commaSep cfgW.headers] ∧
      (cfgW.allowCredentials = true →
        headerValues (corsMiddleware cfgW h0 c6Req w0).writer.headers
            (canonicalHeaderKey hdrACAC)
          = some [valTrue]) ∧
      (allowedOrigin exOrigin cfgW.origins = true →
        headerValues (corsMiddleware cfgW h0 c6Req w0).writer.headers
            (canonicalHeaderKey hdrACAO)
          = some [exOrigin]) ∧
      (corsMiddleware cfgW h0 c6Req w0).logs = w0.logs ∧
      (corsMiddleware cfgW h0 c6Req w0).trace = w0.trace) :=
  ⟨by decide, rfl, by decide, by decide, rfl,
   cors_preflight_terminates cfgW h0 idHandler c6Req w0 exOrigin
     (by decide) rfl (by decide) (by decide) rfl⟩

end Apiweaver
